import Mathlib

/-!
# Verification of the `perspective` event-visualization engine

This file is a shallow embedding, in Lean 4, of the parts of the
`perspective` graphing library (Go) that the specification's claims are
about: the bounds-discarding pixel accessor `getRGBA`, the wave, sweep and
scatter renderers' `Record` operations, the grid-drawing loops run at
construction time, and the CSV feed's `getErrorCode` classifier.

Modelling conventions, chosen once and used throughout:

* Go `int`, `int32` and `int16` values are embedded as `ℤ`.  Where the Go
  code performs 32-bit addition that can wrap (`e.Start + e.Run` on
  `int32` fields), the wrap is made explicit with `add32`.  The
  `int8(...)` conversion of the CSV feed is made explicit with `int8wrap`.
* Go `float64` arithmetic is embedded as exact arithmetic over `ℚ`.  All
  float operands appearing in the claims are integers of magnitude well
  below `2^53` (32-bit times, pixel dimensions, 8/16-bit color values),
  where `float64` addition, subtraction and multiplication are exact, so
  the embedding is faithful for them; division results are consumed only
  through truncation or comparison.  Division by zero yields the junk
  value `0` in `ℚ` where Go would yield an IEEE infinity or NaN; no
  theorem below depends on the value produced in that situation.
* Go's `int(f)` conversion on a `float64` truncates toward zero; it is
  embedded as `goTrunc`.  Go's `uint8(f)` on an in-range value is
  embedded as `goUint8`.
* `math.Log2` is transcendental and has no exact rational embedding, so
  definitions that consume it (`sweep.Record`'s per-step y-offset,
  `scatter.Record`'s y-coordinate) take the relevant log-derived
  quantity as an explicit function argument, and the theorems below
  quantify over every such function.  Concrete instantiations use the
  kernel-computable `floorLog2`, which agrees with
  `int(1.0 * math.Log2(float64 k))` for every positive integer `k`
  (the floor of the base-2 logarithm).
-/

/-- Go's `int(f)` conversion of a `float64`: truncation toward zero,
computed exactly on a rational. -/
def goTrunc (q : ℚ) : ℤ := Int.tdiv q.num q.den

/-- Go's `uint8(f)` conversion for a value in `[0, 256)`: truncation. -/
def goUint8 (q : ℚ) : ℕ := (goTrunc q).toNat

/-- Wrap an integer into the `int32` range, as Go's 32-bit arithmetic does. -/
def wrap32 (a : ℤ) : ℤ := (a + 2 ^ 31) % 2 ^ 32 - 2 ^ 31

/-- Go `int32` addition (`a + b` on two `int32` values): wraps on overflow. -/
def add32 (a b : ℤ) : ℤ := wrap32 (a + b)

/-- Go `int8(n)` conversion of an integer: keeps the low 8 bits, signed. -/
def int8wrap (a : ℤ) : ℤ := (a + 128) % 256 - 128

/-- The `color.RGBA` struct: one 8-bit value per channel.  Channels are
embedded as `ℕ`; all values produced by the embedded code lie in
`[0, 255]`. -/
structure RGBA where
  r : ℕ
  g : ℕ
  b : ℕ
  a : ℕ
  deriving DecidableEq, Repr

/-! ## Byte-level model of `image.RGBA` and `getRGBA` (src/unnamed/part_000)

`image.NewRGBA(image.Rect(0, 0, w, h))` yields a flat byte buffer `Pix`
with `Stride = 4*w`, rectangle minimum `(0,0)`, and
`PixOffset(x, y) = y*Stride + x*4`.  `getRGBA` checks
`(image.Point{x, y}).In(i.Rect)` — that is `0 ≤ x < w ∧ 0 ≤ y < h` — and
returns a pointer into `Pix` at that offset; otherwise it returns a
pointer to a fresh throwaway `color.RGBA{}` whose mutations are discarded
when it falls out of scope.  The pointer is modelled as `Option ℤ`: `some
o` is a reference into the buffer at byte offset `o`, `none` is the
sink pixel. -/

/-- The byte-level state of a Go `image.RGBA` with rectangle
`(0, 0)–(w, h)`: buffer contents as a function from byte offset. -/
structure GoImage where
  w : ℤ
  h : ℤ
  stride : ℤ
  pix : ℤ → ℕ

/-- `image.RGBA.PixOffset` for a rectangle with minimum `(0, 0)`. -/
def pixOffset (img : GoImage) (x y : ℤ) : ℤ := y * img.stride + x * 4

/-- `(image.Point{x, y}).In(i.Rect)` for a rectangle `(0,0)–(w,h)`. -/
def inRect (img : GoImage) (x y : ℤ) : Prop :=
  0 ≤ x ∧ x < img.w ∧ 0 ≤ y ∧ y < img.h

instance (img : GoImage) (x y : ℤ) : Decidable (inRect img x y) := by
  unfold inRect; infer_instance

/-- `getRGBA` from src/unnamed/part_000 lines 86–100: a reference to the
pixel's bytes when `(x, y)` is in the image rectangle, the sink pixel
otherwise. -/
def getRGBA (img : GoImage) (x y : ℤ) : Option ℤ :=
  if inRect img x y then some (pixOffset img x y) else none

/-- Writing a `color.RGBA` value through the reference returned by
`getRGBA`: an in-buffer reference stores the four channel bytes at
offsets `o, o+1, o+2, o+3`; a store through the sink reference is
discarded when the sink falls out of scope. -/
def storeRGBA (img : GoImage) (ref : Option ℤ) (v : RGBA) : GoImage :=
  match ref with
  | none => img
  | some o =>
    { img with
      pix := fun i =>
        if i = o then v.r
        else if i = o + 1 then v.g
        else if i = o + 2 then v.b
        else if i = o + 3 then v.a
        else img.pix i }

/-- The pixel at `(x, y)` as read back from the byte buffer (the view
`image.RGBA.At` exposes, restricted to 8-bit channel values). -/
def pixelAt (img : GoImage) (x y : ℤ) : RGBA :=
  ⟨img.pix (pixOffset img x y), img.pix (pixOffset img x y + 1),
   img.pix (pixOffset img x y + 2), img.pix (pixOffset img x y + 3)⟩

/-- A fresh `image.NewRGBA(image.Rect(0, 0, w, h))` buffer: stride `4*w`,
all bytes zero. -/
def newImage (w h : ℤ) : GoImage := ⟨w, h, 4 * w, fun _ => 0⟩

/-! ## Pixel-level canvas

The renderers only touch the buffer through `getRGBA` followed by a
read-modify-write of the referenced pixel.  By the `getRGBA` theorem
below (claim C1), an in-bounds access acts on exactly the addressed
pixel and an out-of-bounds access is a no-op, so for the renderer models
the canvas is presented at pixel granularity: a function from
coordinates to `RGBA` values plus the bounds, and a single
modify-through-accessor operation. -/

/-- A visualization canvas at pixel granularity. -/
structure Canvas where
  w : ℤ
  h : ℤ
  pix : ℤ → ℤ → RGBA

/-- Read-modify-write of one pixel through the bounds-discarding accessor:
in bounds, the pixel is replaced by `f` of its old value; out of bounds,
the write lands in the sink pixel and the canvas is unchanged. -/
def modPixel (c : Canvas) (x y : ℤ) (f : RGBA → RGBA) : Canvas :=
  if 0 ≤ x ∧ x < c.w ∧ 0 ≤ y ∧ y < c.h then
    { c with pix := fun i j => if i = x ∧ j = y then f (c.pix x y) else c.pix i j }
  else c

/-- `bg`: gray level of visualization backgrounds (src/unnamed/part_000). -/
def bg : ℕ := 33

/-- `initializeVisualization` from src/unnamed/part_000 lines 103–108:
a `w × h` canvas filled with the opaque background gray. -/
def initVis (w h : ℤ) : Canvas := ⟨w, h, fun _ _ => ⟨bg, bg, bg, 255⟩⟩

/-- One additive-with-saturation channel blend,
`uint8(math.Min(saturated, float64(c) + δ))` from scatter.go lines 74–81
and src/unnamed/part_001 lines 250–259. -/
def blendCh (c : ℕ) (δ : ℚ) : ℕ := goUint8 (min 255 ((c : ℚ) + δ))

/-- The success-pixel blend of sweep and scatter: `R += δ/4`, `G += δ/4`,
`B += δ`, each clamped at 255. -/
def blendSuccess (δ : ℚ) (p : RGBA) : RGBA :=
  ⟨blendCh p.r (δ / 4), blendCh p.g (δ / 4), blendCh p.b δ, p.a⟩

/-- The failure-pixel blend of sweep and scatter: `R += δ` clamped at 255;
the other channels are left alone. -/
def blendFailure (δ : ℚ) (p : RGBA) : RGBA :=
  ⟨blendCh p.r δ, p.g, p.b, p.a⟩

/-! ## Event data points -/

/-- `EventDataPoint` from src/unnamed/part_000 lines 37–41.  `Start` and
`Run` are `int32` in Go and `Status` is `int16`; they are embedded as
`ℤ`, with 32-bit wrap made explicit at the code's addition sites. -/
structure EventDataPoint where
  Start : ℤ
  Run : ℤ
  Status : ℤ
  deriving DecidableEq, Repr

/-! ## The wave renderer (src/unnamed/part_000 lines 116–204) -/

/-- The `wave` struct: canvas, time range, draw cursor `x`, and the
passing/failing active-window sets. -/
structure WaveState where
  w : ℤ
  h : ℤ
  tA : ℚ
  tΩ : ℚ
  vis : Canvas
  x : ℤ
  p : List EventDataPoint
  f : List EventDataPoint

/-- `NewWave` from src/unnamed/part_000 lines 128–138. -/
def NewWave (width height minTime maxTime : ℤ) : WaveState :=
  ⟨width, height, (minTime : ℚ), (maxTime : ℚ), initVis width height, 0, [], []⟩

/-- The pruning loops of `wave.Record` (src/unnamed/part_000 lines
148–159): rebuild the set, appending exactly the events whose 32-bit end
time `Start + Run` is strictly after the new event's start. -/
def pruneKeep (cut : ℤ) (es : List EventDataPoint) : List EventDataPoint :=
  es.foldl (fun acc q => if cut < add32 q.Start q.Run then acc ++ [q] else acc) []

/-- The target column of `wave.Record` (src/unnamed/part_000 line 168):
`int(float64(v.w) * (t - v.tA) / (v.tΩ - v.tA))`. -/
def waveTargetX (v : WaveState) (e : EventDataPoint) : ℤ :=
  goTrunc ((v.w : ℚ) * ((e.Start : ℚ) - v.tA) / (v.tΩ - v.tA))

/-- A 16-bit color component `uint32(math.Min(maxC16, f))` as used in
`wave.Record` (src/unnamed/part_000 lines 177–190). -/
def c16 (q : ℚ) : ℤ := goTrunc (min 65535 q)

/-- Modelled from the spec: the `plot` helper called by `wave.Record`
(src/unnamed/part_000 lines 182 and 194) is not among the provided source
files.  Per §4.1–4.2 of the spec it writes the color given by the three
16-bit channel components to the pixel at `(x, y)` through the
bounds-discarding accessor, fully opaque; the 16-to-8-bit narrowing is
modelled as the usual high byte. -/
def plot (c : Canvas) (x y : ℤ) (r16 g16 b16 : ℤ) : Canvas :=
  modPixel c x y fun _ =>
    ⟨(Int.tdiv r16 256).toNat, (Int.tdiv g16 256).toNat, (Int.tdiv b16 256).toNat, 255⟩

/-- The progress fraction `float64(e.Start - q.Start) / float64(q.Run + 1)`
of src/unnamed/part_000 lines 176 and 188, with the 32-bit arithmetic of
the Go operands made explicit. -/
def waveProg (eStart : ℤ) (q : EventDataPoint) : ℚ :=
  ((wrap32 (eStart - q.Start) : ℚ)) / ((add32 q.Run 1 : ℚ))

/-- Painting one advanced column of the wave visualization
(src/unnamed/part_000 lines 170–196): one pixel per active passing event
stacked upward from the center line, then one per active failing event
stacked downward, both iterated from most recently added to least. -/
def wavePaintColumn (st : WaveState) (e : EventDataPoint) : WaveState :=
  let x := st.x + 1
  let visP := st.p.reverse.enum.foldl
    (fun cv (iq : ℕ × EventDataPoint) =>
      let prog := waveProg e.Start iq.2
      let rg16 := c16 ((bg : ℚ) * 256 + 65535 * prog / 4)
      let b16 := c16 ((bg : ℚ) * 256 + 65535 * prog)
      plot cv x (Int.tdiv st.h 2 - iq.1) rg16 rg16 b16)
    st.vis
  let visF := st.f.reverse.enum.foldl
    (fun cv (iq : ℕ × EventDataPoint) =>
      let prog := waveProg e.Start iq.2
      let r16 := c16 ((bg : ℚ) * 256 + 65535 * prog)
      let gb16 := c16 ((bg : ℚ) * 256 + 65535 * prog / 4)
      plot cv x (Int.tdiv st.h 2 + iq.1) r16 gb16 gb16)
    visP
  { st with x := x, vis := visF }

/-- `wave.Record` from src/unnamed/part_000 lines 147–198: prune both
active sets against the new event's start time, insert the new event by
status, then advance the draw cursor one column at a time up to the
target column, painting each advanced column. -/
def wRecord (st : WaveState) (e : EventDataPoint) : WaveState :=
  let p1 := pruneKeep e.Start st.p
  let f1 := pruneKeep e.Start st.f
  let st1 : WaveState :=
    { st with
      p := if e.Status = 0 then p1 ++ [e] else p1
      f := if e.Status = 0 then f1 else f1 ++ [e] }
  (List.range (waveTargetX st e - st.x).toNat).foldl
    (fun s _ => wavePaintColumn s e) st1

/-! ## The sweep renderer (src/unnamed/part_001 lines 194–292)

`sweep.Record` walks `t` over the integers from `e.Start` to
`e.Start + e.Run` (a 32-bit sum) inclusive.  At each step it computes the
column `x` by the linear time mapping and a depth
`yMin = h/2 - int(yLog2 * math.Log2(math.Max(1, t - tMin)))`, then runs
`for yʹ := y; yʹ > yMin; yʹ-- { y = yʹ; blend pixel }`.  The per-step
offset `int(yLog2 * math.Log2(math.Max(1, d)))` involves the
transcendental `math.Log2`, so the model takes it as a function argument
`yOff : ℕ → ℤ` of the step index `d = t - tMin`. -/

/-- The `sweep` struct fields that `Record` reads: canvas bounds, time
range, and the per-event color increment `cΔ = saturated / colorSteps`
fixed at construction (src/unnamed/part_001 lines 194–222). -/
structure SweepParams where
  w : ℤ
  h : ℤ
  tA : ℚ
  tΩ : ℚ
  cΔ : ℚ

/-- The rows visited by one inner loop
`for yʹ := y; yʹ > yMin; yʹ--` of `sweep.Record`, in visit order:
`y, y-1, ...`, `n` of them. -/
def descRows (y : ℤ) : ℕ → List ℤ
  | 0 => []
  | n + 1 => y :: descRows (y - 1) n

/-- The full paint trace of `sweep.Record`'s nested loops: given the
per-step list of `(x, yMin)` pairs and the current `y`, the `(x, row)`
pairs painted, in order.  After a non-empty inner loop the walk variable
`y` is left at `yMin + 1` (the last row the loop body visited). -/
def sweepArc : List (ℤ × ℤ) → ℤ → List (ℤ × ℤ)
  | [], _ => []
  | (x, m) :: rest, y =>
    (descRows y (y - m).toNat).map (fun r => (x, r)) ++
      sweepArc rest (if m < y then m + 1 else y)

/-- The per-step `(x, yMin)` pairs of `sweep.Record`
(src/unnamed/part_001 lines 240–242): for step `d` from `0` to the
32-bit run length, `x = int(w * ((Start + d) - tA) / (tΩ - tA))` and
`yMin = h/2 - yOff d` where `yOff d` stands for
`int(yLog2 * math.Log2(math.Max(1, d)))`. -/
def sweepSteps (v : SweepParams) (yOff : ℕ → ℤ) (e : EventDataPoint) :
    List (ℤ × ℤ) :=
  (List.range (add32 e.Start e.Run - e.Start + 1).toNat).map fun (d : ℕ) =>
    (goTrunc ((v.w : ℚ) * (((e.Start : ℚ) + (d : ℚ)) - v.tA) / (v.tΩ - v.tA)),
     Int.tdiv v.h 2 - yOff d)

/-- The ordered `(x, row)` paint trace of one `sweep.Record` call; the
walk starts at the center line `y = h/2`. -/
def sweepTrace (v : SweepParams) (yOff : ℕ → ℤ) (e : EventDataPoint) :
    List (ℤ × ℤ) :=
  sweepArc (sweepSteps v yOff e) (Int.tdiv v.h 2)

/-- One paint of `sweep.Record` (src/unnamed/part_001 lines 245–260): a
success blends into `(x, row)` above the center line; a failure blends a
saturated red increment into the mirrored pixel `(x, h - row)`. -/
def sweepPaint (v : SweepParams) (status : ℤ) (cv : Canvas) (xr : ℤ × ℤ) :
    Canvas :=
  if status = 0 then modPixel cv xr.1 xr.2 (blendSuccess v.cΔ)
  else modPixel cv xr.1 (v.h - xr.2) (blendFailure v.cΔ)

/-- `sweep.Record` from src/unnamed/part_001 lines 225–263, as a canvas
transformation: apply the paints of the trace in order. -/
def sweepRecord (v : SweepParams) (yOff : ℕ → ℤ) (c : Canvas)
    (e : EventDataPoint) : Canvas :=
  (sweepTrace v yOff e).foldl (sweepPaint v e.Status) c

/-! ## The scatter renderer (src/scatter.go) -/

/-- The `scatter` struct fields that `Record` reads
(src/scatter.go lines 25–33). -/
structure ScatterParams where
  w : ℤ
  h : ℤ
  tA : ℚ
  tΩ : ℚ
  yLog2 : ℚ
  colors : ℚ

/-- The field assignment of `NewScatter` (src/scatter.go lines 36–53):
the third parameter `minTime` becomes the lower bound `tA` and the
fourth parameter `maxTime` the upper bound `tΩ`. -/
def NewScatterParams (width height minTime maxTime : ℤ) (yLog2 : ℚ)
    (colorSteps : ℤ) : ScatterParams :=
  ⟨width, height, (minTime : ℚ), (maxTime : ℚ), yLog2, (colorSteps : ℚ)⟩

/-- The scatter renderer constructed by the `vis-scatter` dispatch
(src/unnamed/part_001 lines 51–54):
`perspective.NewScatter(w, h, tΩ, tA, yLog2, colorSteps, xGrid)` — the
configured upper time bound is passed as `NewScatter`'s `minTime`
parameter and the lower bound as its `maxTime` parameter. -/
def visScatterParams (w h tA tΩ : ℤ) (yLog2 : ℚ) (colorSteps : ℤ) :
    ScatterParams :=
  NewScatterParams w h tΩ tA yLog2 colorSteps

/-- The column computed by `scatter.Record` (src/scatter.go line 58):
`int(float64(v.w) * (float64(e.Start) - v.tA) / (v.tΩ - v.tA))`. -/
def scatterX (v : ScatterParams) (start : ℤ) : ℤ :=
  goTrunc ((v.w : ℚ) * ((start : ℚ) - v.tA) / (v.tΩ - v.tA))

/-- The row computed by `scatter.Record` (src/scatter.go line 59):
`v.h - int(v.yLog2 * math.Log2(float64(e.Run)))`, with the
transcendental `math.Log2(float64(run))` supplied as `l2 run`. -/
def scatterY (v : ScatterParams) (l2 : ℤ → ℚ) (run : ℤ) : ℤ :=
  v.h - goTrunc (v.yLog2 * l2 run)

/-- `scatter.Record` from src/scatter.go lines 56–83: a single blended
point per event, success and failure sharing the same target pixel but
different channel increments, with `Δ = saturated / v.colors`. -/
def scatterRecord (v : ScatterParams) (l2 : ℤ → ℚ) (c : Canvas)
    (e : EventDataPoint) : Canvas :=
  let x := scatterX v e.Start
  let y := scatterY v l2 e.Run
  let Δ := 255 / v.colors
  if e.Status = 0 then modPixel c x y (blendSuccess Δ)
  else modPixel c x y (blendFailure Δ)

/-- The column mapping the spec claims for the `vis-scatter` dispatch:
`floor(width * (e.start - tA) / (tΩ - tA))`, `tA` the configured lower
and `tΩ` the configured upper time bound (spec §4.2 step 3, §4.4). -/
def specScatterX (w tA tΩ start : ℤ) : ℤ :=
  ⌊((w : ℚ) * ((start : ℚ) - (tA : ℚ))) / ((tΩ : ℚ) - (tA : ℚ))⌋

/-! ## Grid-drawing loops run at construction (scatter.go lines 91–111,
src/unnamed/part_001 lines 271–292)

Construction of the scatter and sweep renderers calls `drawGrid`, whose
loops advance by computed steps; whether they terminate is exactly the
question of the loop-termination predicates below, stated as inductive
reachability of the loop exit. -/

/-- Termination of `for y := y₀; y > 0; y -= s { ... }`
(the horizontal-gridline loop of `scatter.drawGrid`, line 101). -/
inductive DownLoopT (s : ℤ) : ℤ → Prop
  | exit : ∀ y, ¬ 0 < y → DownLoopT s y
  | step : ∀ y, 0 < y → DownLoopT s (y - s) → DownLoopT s y

/-- Termination of `for y := y₀; y < bound; y += s { ... }`
(the vertical-gridline loops, and the horizontal-gridline loop of
`sweep.drawGrid`, src/unnamed/part_001 lines 275 and 281). -/
inductive UpLoopT (bound s : ℤ) : ℤ → Prop
  | exit : ∀ y, ¬ y < bound → UpLoopT bound s y
  | step : ∀ y, y < bound → UpLoopT bound s (y + s) → UpLoopT bound s y

/-- The horizontal-gridline step `int(float64(h) / yLog2)`. -/
def hStep (h : ℤ) (yLog2 : ℚ) : ℤ := goTrunc ((h : ℚ) / yLog2)

/-- The vertical-gridline step `w / xGrid` (Go integer division). -/
def vStep (w xGrid : ℤ) : ℤ := Int.tdiv w xGrid

/-- Termination of `scatter.drawGrid` (src/scatter.go lines 91–111): the
vertical loop `for x := 0; x < w; x += w/xGrid` runs only when
`xGrid > 0`; the horizontal loop is `for y := h; y > 0; y -= hStep`. -/
def scatterGridTerm (w h : ℤ) (yLog2 : ℚ) (xGrid : ℤ) : Prop :=
  (0 < xGrid → UpLoopT w (vStep w xGrid) 0) ∧ DownLoopT (hStep h yLog2) h

/-- Termination of `sweep.drawGrid` (src/unnamed/part_001 lines
271–292): the same vertical loop, and the horizontal loop
`for y := h/2; y < h; y += hStep`. -/
def sweepGridTerm (w h : ℤ) (yLog2 : ℚ) (xGrid : ℤ) : Prop :=
  (0 < xGrid → UpLoopT w (vStep w xGrid) 0) ∧
    UpLoopT h (hStep h yLog2) (Int.tdiv h 2)

/-! ## Error-reason classification (src/feeds/csv.go) -/

/-- An error-reason filter: the `MatchString` behaviour of one compiled
regular expression, abstracted as a predicate on the reason string. -/
abbrev ErrorFilter : Type := String → Bool

/-- The character class of RE2's `\s`: `[\t\n\f\r ]`. -/
def isGoSpace (c : Char) : Bool :=
  c = ' ' || c = '\t' || c = '\n' || c = '\u000C' || c = '\r'

/-- The implicit first filter `^\s*$` compiled by `ConvertCSVToBinary`
(src/feeds/csv.go lines 49–54): matches exactly the empty and
all-whitespace reasons. -/
def blankFilter : ErrorFilter := fun s => s.data.all isGoSpace

/-- The loop of `getErrorCode` (src/feeds/csv.go lines 186–199) with the
running index made explicit: return `int8(i + 1)` at the first matching
filter, or `int8(len + 1)` past the end. -/
def getErrorCodeAux (reason : String) : List ErrorFilter → ℕ → ℤ
  | [], i => int8wrap (i + 1)
  | flt :: rest, i =>
    if flt reason then int8wrap (i + 1) else getErrorCodeAux reason rest (i + 1)

/-- `getErrorCode` from src/feeds/csv.go lines 186–199. -/
def getErrorCode (reason : String) (errorFilters : List ErrorFilter) : ℤ :=
  getErrorCodeAux reason errorFilters 0

/-! ## Helper lemmas -/

theorem goTrunc_of_nonneg {q : ℚ} (h : 0 ≤ q) : goTrunc q = ⌊q⌋ := by
  have hnum : 0 ≤ q.num := Rat.num_nonneg.mpr h
  have hden : (0 : ℤ) ≤ (q.den : ℤ) := Int.ofNat_nonneg q.den
  have h1 : goTrunc q = q.num / (q.den : ℤ) := Int.tdiv_eq_ediv hnum hden
  have h2 : ⌊q⌋ = q.num / (q.den : ℤ) := by
    conv_lhs => rw [← Rat.num_div_den q]
    exact Rat.floor_intCast_div_natCast q.num q.den
  rw [h1, h2]

theorem goTrunc_intCast (n : ℤ) : goTrunc (n : ℚ) = n := by
  rw [goTrunc]
  simp [Rat.intCast_num, Rat.intCast_den]

theorem goTrunc_nonpos {q : ℚ} (h : q ≤ 0) : goTrunc q ≤ 0 := by
  have hnum : q.num ≤ 0 := Rat.num_nonpos.mpr h
  have : goTrunc q = -((-q.num).tdiv q.den) := by
    rw [goTrunc, ← Int.neg_tdiv, neg_neg]
  rw [this, neg_nonpos]
  exact Int.tdiv_nonneg (by omega) (Int.ofNat_nonneg q.den)

theorem blendCh_le_255 (c : ℕ) (δ : ℚ) : blendCh c δ ≤ 255 := by
  rw [blendCh, goUint8]
  rcases le_or_lt 0 (min 255 ((c : ℚ) + δ)) with hq | hq
  · rw [Int.toNat_le, goTrunc_of_nonneg hq]
    have : ⌊min (255 : ℚ) ((c : ℚ) + δ)⌋ ≤ ⌊(255 : ℚ)⌋ :=
      Int.floor_le_floor (min_le_left _ _)
    simpa using this
  · rw [Int.toNat_le]
    calc goTrunc _ ≤ 0 := goTrunc_nonpos hq.le
    _ ≤ (255 : ℤ) := by omega

theorem blendCh_ge {c : ℕ} {δ : ℚ} (hδ : 0 ≤ δ) (hc : c ≤ 255) :
    c ≤ blendCh c δ := by
  rw [blendCh, goUint8]
  have hcq : (c : ℚ) ≤ min 255 ((c : ℚ) + δ) := by
    refine le_min ?_ (by linarith)
    exact_mod_cast (by exact_mod_cast hc : (c : ℚ) ≤ 255)
  have hq : 0 ≤ min (255 : ℚ) ((c : ℚ) + δ) :=
    le_trans (by positivity) hcq
  rw [goTrunc_of_nonneg hq]
  have hfl : (c : ℤ) ≤ ⌊min (255 : ℚ) ((c : ℚ) + δ)⌋ := by
    rw [Int.le_floor]; exact_mod_cast hcq
  rw [Int.le_toNat (le_trans (by omega) hfl)]
  exact_mod_cast hfl

theorem blendCh_fold_bounds (ds : List ℚ) (c : ℕ)
    (hds : ∀ δ ∈ ds, 0 ≤ δ) (hc : c ≤ 255) :
    c ≤ ds.foldl blendCh c ∧ ds.foldl blendCh c ≤ 255 := by
  induction ds generalizing c with
  | nil => exact ⟨le_refl c, hc⟩
  | cons δ rest ih =>
    have hδ : 0 ≤ δ := hds δ (List.mem_cons_self _ _)
    have hrest : ∀ x ∈ rest, 0 ≤ x := fun x hx => hds x (List.mem_cons_of_mem _ hx)
    have h1 : c ≤ blendCh c δ := blendCh_ge hδ hc
    have h2 : blendCh c δ ≤ 255 := blendCh_le_255 c δ
    obtain ⟨ha, hb⟩ := ih (blendCh c δ) hrest h2
    exact ⟨le_trans h1 ha, hb⟩

theorem foldl_append_if_eq_filter (p : EventDataPoint → Bool)
    (es : List EventDataPoint) :
    ∀ acc : List EventDataPoint,
      es.foldl (fun acc q => if p q then acc ++ [q] else acc) acc =
        acc ++ es.filter p := by
  induction es with
  | nil => intro acc; simp
  | cons q rest ih =>
    intro acc
    by_cases hq : p q
    · simp [List.foldl_cons, hq, ih, List.filter_cons]
    · simp [List.foldl_cons, hq, ih, List.filter_cons]

theorem pruneKeep_eq_filter (cut : ℤ) (es : List EventDataPoint) :
    pruneKeep cut es = es.filter (fun q => cut < add32 q.Start q.Run) := by
  rw [pruneKeep]
  have := foldl_append_if_eq_filter
    (fun q => decide (cut < add32 q.Start q.Run)) es []
  simpa [decide_eq_true_eq] using this

theorem wavePaintColumn_p (st : WaveState) (e : EventDataPoint) :
    (wavePaintColumn st e).p = st.p := rfl

theorem wavePaintColumn_f (st : WaveState) (e : EventDataPoint) :
    (wavePaintColumn st e).f = st.f := rfl

theorem wavePaintColumn_x (st : WaveState) (e : EventDataPoint) :
    (wavePaintColumn st e).x = st.x + 1 := rfl

theorem foldl_wavePaintColumn_p (e : EventDataPoint) (l : List ℕ) :
    ∀ st : WaveState,
      (l.foldl (fun s _ => wavePaintColumn s e) st).p = st.p := by
  induction l with
  | nil => intro st; rfl
  | cons a rest ih =>
    intro st
    rw [List.foldl_cons, ih, wavePaintColumn_p]

theorem foldl_wavePaintColumn_f (e : EventDataPoint) (l : List ℕ) :
    ∀ st : WaveState,
      (l.foldl (fun s _ => wavePaintColumn s e) st).f = st.f := by
  induction l with
  | nil => intro st; rfl
  | cons a rest ih =>
    intro st
    rw [List.foldl_cons, ih, wavePaintColumn_f]

theorem foldl_wavePaintColumn_x (e : EventDataPoint) (l : List ℕ) :
    ∀ st : WaveState,
      (l.foldl (fun s _ => wavePaintColumn s e) st).x = st.x + l.length := by
  induction l with
  | nil => intro st; simp
  | cons a rest ih =>
    intro st
    rw [List.foldl_cons, ih, wavePaintColumn_x]
    simp; omega

theorem wRecord_p (st : WaveState) (e : EventDataPoint) :
    (wRecord st e).p =
      st.p.filter (fun q => e.Start < add32 q.Start q.Run) ++
        (if e.Status = 0 then [e] else []) := by
  rw [wRecord]
  rw [foldl_wavePaintColumn_p]
  by_cases h : e.Status = 0 <;> simp [h, pruneKeep_eq_filter]

theorem wRecord_f (st : WaveState) (e : EventDataPoint) :
    (wRecord st e).f =
      st.f.filter (fun q => e.Start < add32 q.Start q.Run) ++
        (if e.Status = 0 then [] else [e]) := by
  rw [wRecord]
  rw [foldl_wavePaintColumn_f]
  by_cases h : e.Status = 0 <;> simp [h, pruneKeep_eq_filter]

theorem wRecord_x (st : WaveState) (e : EventDataPoint) :
    (wRecord st e).x = max st.x (waveTargetX st e) := by
  rw [wRecord]
  rw [foldl_wavePaintColumn_x]
  simp only [List.length_range]
  omega

/-- One step of the sweep y-walk between consecutively painted rows:
the next painted row is the same row (start of a new time step, or a
horizontal stretch of the arc) or the row directly above. -/
def stepDown (a b : ℤ) : Prop := b = a ∨ b = a - 1

instance (a b : ℤ) : Decidable (stepDown a b) := by
  unfold stepDown; infer_instance

theorem descRows_mem {r : ℤ} : ∀ {n : ℕ} {y : ℤ}, r ∈ descRows y n → r ≤ y := by
  intro n
  induction n with
  | zero => intro y h; simp [descRows] at h
  | succ n ih =>
    intro y h
    rw [descRows] at h
    rcases List.mem_cons.mp h with h | h
    · omega
    · have := ih h; omega

theorem descRows_head (y : ℤ) (n : ℕ) (h : 0 < n) :
    (descRows y n).head? = some y := by
  cases n with
  | zero => omega
  | succ n => rfl

theorem descRows_getLast (n : ℕ) :
    ∀ y : ℤ, (descRows y (n + 1)).getLast? = some (y - n) := by
  induction n with
  | zero => intro y; simp [descRows]
  | succ n ih =>
    intro y
    have hcons : descRows y (n + 1 + 1) = y :: descRows (y - 1) (n + 1) := rfl
    have htail : descRows (y - 1) (n + 1) = (y - 1) :: descRows (y - 1 - 1) n := rfl
    rw [hcons, htail, List.getLast?_cons_cons, ← htail, ih (y - 1)]
    congr 1
    push_cast
    ring

theorem descRows_chain (n : ℕ) :
    ∀ y : ℤ, List.Chain' (fun a b => b = a - 1) (descRows y n) := by
  induction n with
  | zero => intro y; simp [descRows]
  | succ n ih =>
    intro y
    rw [descRows]
    cases n with
    | zero => simp [descRows]
    | succ m =>
      rw [List.chain'_cons']
      constructor
      · intro b hb
        rw [descRows_head _ _ (Nat.succ_pos m)] at hb
        simp at hb
        omega
      · exact ih (y - 1)

theorem sweepArc_snd_le :
    ∀ (xs : List (ℤ × ℤ)) (y : ℤ) (q : ℤ × ℤ), q ∈ sweepArc xs y → q.2 ≤ y := by
  intro xs
  induction xs with
  | nil => intro y q h; simp [sweepArc] at h
  | cons xm rest ih =>
    intro y q h
    obtain ⟨x, m⟩ := xm
    rw [sweepArc] at h
    rcases List.mem_append.mp h with h | h
    · obtain ⟨r, hr, hq⟩ := List.mem_map.mp h
      have := descRows_mem hr
      rw [← hq]
      simpa using this
    · have := ih _ q h
      by_cases hm : m < y
      · simp [hm] at this; omega
      · simpa [hm] using this

theorem sweepArc_head :
    ∀ (xs : List (ℤ × ℤ)) (y : ℤ) (q : ℤ × ℤ),
      (sweepArc xs y).head? = some q → q.2 = y := by
  intro xs
  induction xs with
  | nil => intro y q h; simp [sweepArc] at h
  | cons xm rest ih =>
    intro y q h
    obtain ⟨x, m⟩ := xm
    rw [sweepArc] at h
    by_cases hm : m < y
    · have hn : (y - m).toNat = (y - m - 1).toNat + 1 := by omega
      rw [hn, descRows] at h
      simp only [List.map_cons, List.cons_append, List.head?_cons,
        Option.some.injEq] at h
      rw [← h]
    · have hn : (y - m).toNat = 0 := by omega
      rw [hn] at h
      simp only [descRows, List.map_nil, List.nil_append, if_neg hm] at h
      exact ih y q h

theorem sweepArc_rows_chain :
    ∀ (xs : List (ℤ × ℤ)) (y : ℤ),
      List.Chain' stepDown ((sweepArc xs y).map Prod.snd) := by
  intro xs
  induction xs with
  | nil => intro y; simp [sweepArc]
  | cons xm rest ih =>
    intro y
    obtain ⟨x, m⟩ := xm
    rw [sweepArc, List.map_append]
    have hseg : ∀ l : List ℤ, (l.map (fun r => (x, r))).map Prod.snd = l := by
      intro l; rw [List.map_map]; exact List.map_id l
    rw [hseg]
    rw [List.chain'_append]
    refine ⟨(descRows_chain _ y).imp (fun a b hab => Or.inr hab), ih _, ?_⟩
    intro a ha b hb
    rcases hn : (y - m).toNat with _ | k
    · rw [hn] at ha; simp [descRows] at ha
    · rw [hn, descRows_getLast] at ha
      simp at ha
      rw [List.head?_map] at hb
      rcases ho : (sweepArc rest (if m < y then m + 1 else y)).head? with _ | q
      · rw [ho] at hb; simp at hb
      · rw [ho] at hb
        simp at hb
        have hq2 := sweepArc_head rest _ q ho
        have hm : m < y := by omega
        rw [if_pos hm] at hq2
        left
        omega

theorem sweepTrace_rows_le (v : SweepParams) (yOff : ℕ → ℤ)
    (e : EventDataPoint) (q : ℤ × ℤ) (hq : q ∈ sweepTrace v yOff e) :
    q.2 ≤ Int.tdiv v.h 2 :=
  sweepArc_snd_le _ _ q hq

theorem modPixel_pix_ne_row (c : Canvas) (x y : ℤ) (f : RGBA → RGBA)
    (i j : ℤ) (hij : j ≠ y) : (modPixel c x y f).pix i j = c.pix i j := by
  rw [modPixel]
  split
  · simp only
    rw [if_neg]
    intro hc
    exact hij hc.2
  · rfl

theorem foldl_sweepPaint_success_below (v : SweepParams)
    (l : List (ℤ × ℤ)) (hl : ∀ q ∈ l, q.2 ≤ Int.tdiv v.h 2) (i j : ℤ)
    (hj : Int.tdiv v.h 2 < j) :
    ∀ c : Canvas, (l.foldl (sweepPaint v 0) c).pix i j = c.pix i j := by
  induction l with
  | nil => intro c; rfl
  | cons q rest ih =>
    intro c
    rw [List.foldl_cons]
    have hq : q.2 ≤ Int.tdiv v.h 2 := hl q (List.mem_cons_self _ _)
    have hrest : ∀ r ∈ rest, r.2 ≤ Int.tdiv v.h 2 :=
      fun r hr => hl r (List.mem_cons_of_mem _ hr)
    rw [ih hrest]
    rw [sweepPaint, if_pos rfl]
    exact modPixel_pix_ne_row _ _ _ _ _ _ (by omega)

theorem foldl_sweepPaint_failure_above (v : SweepParams) (status : ℤ)
    (hst : status ≠ 0) (l : List (ℤ × ℤ))
    (hl : ∀ q ∈ l, q.2 ≤ Int.tdiv v.h 2) (i j : ℤ)
    (hj : j < v.h - Int.tdiv v.h 2) :
    ∀ c : Canvas, (l.foldl (sweepPaint v status) c).pix i j = c.pix i j := by
  induction l with
  | nil => intro c; rfl
  | cons q rest ih =>
    intro c
    rw [List.foldl_cons]
    have hq : q.2 ≤ Int.tdiv v.h 2 := hl q (List.mem_cons_self _ _)
    have hrest : ∀ r ∈ rest, r.2 ≤ Int.tdiv v.h 2 :=
      fun r hr => hl r (List.mem_cons_of_mem _ hr)
    rw [ih hrest]
    rw [sweepPaint, if_neg hst]
    exact modPixel_pix_ne_row _ _ _ _ _ _ (by omega)

theorem pixOffset_apart {w x y x' y' : ℤ} (hx : 0 ≤ x) (hxw : x < w)
    (hx' : 0 ≤ x') (hx'w : x' < w) (hne : ¬ (x' = x ∧ y' = y)) :
    (y' * (4 * w) + x' * 4) - (y * (4 * w) + x * 4) ≤ -4 ∨
      4 ≤ (y' * (4 * w) + x' * 4) - (y * (4 * w) + x * 4) := by
  have hw : 1 ≤ w := by omega
  have key : (y' * (4 * w) + x' * 4) - (y * (4 * w) + x * 4) =
      4 * ((y' - y) * w) + 4 * (x' - x) := by ring
  rcases lt_trichotomy y' y with hy | hy | hy
  · left
    have h1 : y' - y ≤ -1 := by omega
    have h2 : (y' - y) * w ≤ -1 * w :=
      mul_le_mul_of_nonneg_right h1 (by omega)
    rw [key]; linarith
  · subst hy
    have hxx : x' ≠ x := fun hc => hne ⟨hc, rfl⟩
    rw [key]
    have h0 : (x' - x) * w = (x' - x) * w := rfl
    rcases lt_or_gt_of_ne hxx with h | h
    · left; nlinarith [mul_self_nonneg (w : ℤ)]
    · right; nlinarith [mul_self_nonneg (w : ℤ)]
  · right
    have h1 : 1 ≤ y' - y := by omega
    have h2 : 1 * w ≤ (y' - y) * w :=
      mul_le_mul_of_nonneg_right h1 (by omega)
    rw [key]; linarith

theorem storeRGBA_pixOffset (img : GoImage) (ref : Option ℤ) (v : RGBA)
    (x y : ℤ) : pixOffset (storeRGBA img ref v) x y = pixOffset img x y := by
  cases ref <;> rfl

theorem storeRGBA_some_pix (img : GoImage) (o : ℤ) (v : RGBA) (i : ℤ) :
    (storeRGBA img (some o) v).pix i =
      if i = o then v.r
      else if i = o + 1 then v.g
      else if i = o + 2 then v.b
      else if i = o + 3 then v.a
      else img.pix i := rfl

/-- C1: for every canvas and every coordinate pair, `getRGBA` returns a
reference to the addressed pixel when `(x, y)` is in bounds — writing a
value through it makes exactly that pixel hold the value and leaves
every other in-bounds pixel unchanged — and when `(x, y)` is out of
bounds (negative or extreme values included), writing through the
returned reference leaves the entire canvas unchanged. -/
theorem getRGBA_bounds_safe (img : GoImage) (x y : ℤ) (v : RGBA)
    (hstride : img.stride = 4 * img.w) :
    (inRect img x y →
      pixelAt (storeRGBA img (getRGBA img x y) v) x y = v ∧
      ∀ x' y', inRect img x' y' → ¬ (x' = x ∧ y' = y) →
        pixelAt (storeRGBA img (getRGBA img x y) v) x' y' = pixelAt img x' y') ∧
    (¬ inRect img x y → storeRGBA img (getRGBA img x y) v = img) := by
  constructor
  · intro hin
    rw [getRGBA, if_pos hin]
    constructor
    · rw [pixelAt, storeRGBA_pixOffset]
      rw [storeRGBA_some_pix, storeRGBA_some_pix, storeRGBA_some_pix,
        storeRGBA_some_pix]
      set o := pixOffset img x y with ho
      rw [if_pos rfl]
      rw [if_neg (by omega), if_pos rfl]
      rw [if_neg (by omega), if_neg (by omega), if_pos rfl]
      rw [if_neg (by omega), if_neg (by omega), if_neg (by omega), if_pos rfl]
    · intro x' y' hin' hne
      obtain ⟨hx0, hxw, hy0, hyh⟩ := hin
      obtain ⟨hx0', hxw', hy0', hyh'⟩ := hin'
      have hap := pixOffset_apart (w := img.w) hx0 hxw hx0' hxw' hne
      have hap' : pixOffset img x' y' - pixOffset img x y ≤ -4 ∨
          4 ≤ pixOffset img x' y' - pixOffset img x y := by
        simpa [pixOffset, hstride] using hap
      rw [pixelAt, pixelAt, storeRGBA_pixOffset]
      rw [storeRGBA_some_pix, storeRGBA_some_pix, storeRGBA_some_pix,
        storeRGBA_some_pix]
      set o := pixOffset img x y with ho
      set o' := pixOffset img x' y' with ho'
      rw [if_neg (by omega), if_neg (by omega), if_neg (by omega),
        if_neg (by omega)]
      rw [if_neg (by omega), if_neg (by omega), if_neg (by omega),
        if_neg (by omega)]
      rw [if_neg (by omega), if_neg (by omega), if_neg (by omega),
        if_neg (by omega)]
      rw [if_neg (by omega), if_neg (by omega), if_neg (by omega),
        if_neg (by omega)]
  · intro hout
    rw [getRGBA, if_neg hout]
    rfl

/-- Witness for C1: in a fresh 2×2 image, writing `(9, 8, 7, 255)`
through `getRGBA` at the in-bounds point `(1, 1)` stores exactly that
pixel value, leaves in-bounds pixel `(0, 0)` at its old value, and
writing through `getRGBA` at the out-of-bounds point `(-3, 7)` leaves
the image unchanged. -/
theorem getRGBA_bounds_safe_witness :
    pixelAt (storeRGBA (newImage 2 2) (getRGBA (newImage 2 2) 1 1)
      ⟨9, 8, 7, 255⟩) 1 1 = ⟨9, 8, 7, 255⟩ ∧
    pixelAt (storeRGBA (newImage 2 2) (getRGBA (newImage 2 2) 1 1)
      ⟨9, 8, 7, 255⟩) 0 0 = pixelAt (newImage 2 2) 0 0 ∧
    storeRGBA (newImage 2 2) (getRGBA (newImage 2 2) (-3) 7)
      ⟨9, 8, 7, 255⟩ = newImage 2 2 := by
  refine ⟨?_, ?_, ?_⟩
  · exact ((getRGBA_bounds_safe (newImage 2 2) 1 1 ⟨9, 8, 7, 255⟩ rfl).1
      (by decide)).1
  · exact ((getRGBA_bounds_safe (newImage 2 2) 1 1 ⟨9, 8, 7, 255⟩ rfl).1
      (by decide)).2 0 0 (by decide) (by decide)
  · exact (getRGBA_bounds_safe (newImage 2 2) (-3) 7 ⟨9, 8, 7, 255⟩ rfl).2
      (by decide)

/-- C2: in the sweep and scatter renderers every per-pixel channel blend
adds one of the two per-event deltas `Δ = saturated/colorSteps` or
`Δ/4` and clamps at 255; for any number of accumulated blends on a
channel starting within `[0, 255]`, the channel value stays within
`[0, 255]`, never wraps, and never decreases. -/
theorem blend_channel_saturation_monotone (k : ℤ) (hk : 1 ≤ k)
    (ds : List ℚ)
    (hds : ∀ δ ∈ ds, δ = 255 / (k : ℚ) ∨ δ = 255 / (k : ℚ) / 4)
    (c : ℕ) (hc : c ≤ 255) :
    c ≤ ds.foldl blendCh c ∧ ds.foldl blendCh c ≤ 255 := by
  apply blendCh_fold_bounds
  · intro δ hδ
    have hkq : (0 : ℚ) < (k : ℚ) := by exact_mod_cast hk.trans_lt' (by norm_num)
    rcases hds δ hδ with h | h <;> rw [h] <;> positivity
  · exact hc

/-- Witness for C2: with one color step (`Δ = 255`), blending the
background gray channel value 33 by `Δ` and then by `Δ/4` keeps the
channel within `[33, 255]`. -/
theorem blend_channel_saturation_monotone_witness :
    33 ≤ [(255 : ℚ) / ((1 : ℤ) : ℚ), (255 : ℚ) / ((1 : ℤ) : ℚ) / 4].foldl
      blendCh 33 ∧
    [(255 : ℚ) / ((1 : ℤ) : ℚ), (255 : ℚ) / ((1 : ℤ) : ℚ) / 4].foldl
      blendCh 33 ≤ 255 :=
  blend_channel_saturation_monotone 1 (by decide) _
    (by intro δ hδ; simpa using hδ) 33 (by decide)

/-- C3: after `wave.Record(e)`, each active-window set consists exactly
of the previously active events whose 32-bit end time `Start + Run` is
strictly greater than `e.Start` (everything with `Start + Run ≤ e.Start`
is evicted), in their original order, with `e` appended to the passing
set when `e.Status = 0` and to the failing set otherwise. -/
theorem wave_record_active_sets (st : WaveState) (e : EventDataPoint) :
    (wRecord st e).p =
      st.p.filter (fun q => e.Start < add32 q.Start q.Run) ++
        (if e.Status = 0 then [e] else []) ∧
    (wRecord st e).f =
      st.f.filter (fun q => e.Start < add32 q.Start q.Run) ++
        (if e.Status = 0 then [] else [e]) :=
  ⟨wRecord_p st e, wRecord_f st e⟩

/-- C8: `wave.Record` is total on arbitrary input — out-of-order start
times, zero or negative runs, and arbitrary status values included.  For
every state and every event the call produces a well-defined result: the
draw cursor ends exactly at the maximum of its old position and the
target column (the drawing loop completes), and the active sets are the
pruned-and-inserted lists, whose lengths grow by at most one. -/
theorem wave_record_total (st : WaveState) (e : EventDataPoint) :
    (wRecord st e).x = max st.x (waveTargetX st e) ∧
    (wRecord st e).p.length + (wRecord st e).f.length ≤
      st.p.length + st.f.length + 1 := by
  refine ⟨wRecord_x st e, ?_⟩
  rw [wRecord_p, wRecord_f]
  have hp := st.p.length_filter_le (fun q => e.Start < add32 q.Start q.Run)
  have hf := st.f.length_filter_le (fun q => e.Start < add32 q.Start q.Run)
  by_cases h : e.Status = 0 <;> simp [h] <;> omega

/-! ## End-to-end pipelines (claim C9)

Every renderer's `Render` returns its canvas unchanged (src/scatter.go
lines 87–89, src/unnamed/part_000 lines 202–204, src/unnamed/part_001
lines 267–269), so the `Record*; Render` pipeline is the fold of the
`Record` model over the input events.  The scatter and sweep folds start
from the canvas produced at construction; the starting canvas is
a parameter below. -/

/-- The wave pipeline: construct, record all events in order, render. -/
def waveRun (w h minT maxT : ℤ) (es : List EventDataPoint) : Canvas :=
  (es.foldl wRecord (NewWave w h minT maxT)).vis

/-- The scatter pipeline from a given construction-time canvas. -/
def scatterRun (v : ScatterParams) (l2 : ℤ → ℚ) (c0 : Canvas)
    (es : List EventDataPoint) : Canvas :=
  es.foldl (scatterRecord v l2) c0

/-- The sweep pipeline from a given construction-time canvas. -/
def sweepRun (v : SweepParams) (yOff : ℕ → ℤ) (c0 : Canvas)
    (es : List EventDataPoint) : Canvas :=
  es.foldl (sweepRecord v yOff) c0

/-- C9: with fixed construction parameters, the `Record*; Render`
pipeline of each renderer variant is deterministic — it is a pure
function of the input event sequence, with no dependence on clocks,
randomness or any other ambient state, so two runs on equal inputs
produce identical pixel grids. -/
theorem pipelines_deterministic (w h minT maxT : ℤ)
    (sv : ScatterParams) (l2 : ℤ → ℚ) (sc0 : Canvas)
    (wv : SweepParams) (yOff : ℕ → ℤ) (wc0 : Canvas)
    (es₁ es₂ : List EventDataPoint) (heq : es₁ = es₂) :
    waveRun w h minT maxT es₁ = waveRun w h minT maxT es₂ ∧
    scatterRun sv l2 sc0 es₁ = scatterRun sv l2 sc0 es₂ ∧
    sweepRun wv yOff wc0 es₁ = sweepRun wv yOff wc0 es₂ := by
  subst heq
  exact ⟨rfl, rfl, rfl⟩

/-- Witness for C9: the three pipelines at a concrete parameter set and
a concrete two-event stream (one success, one failure). -/
theorem pipelines_deterministic_witness :
    waveRun 4 4 0 4 [⟨0, 1, 0⟩, ⟨2, 1, 1⟩] =
      waveRun 4 4 0 4 [⟨0, 1, 0⟩, ⟨2, 1, 1⟩] ∧
    scatterRun ⟨4, 4, 0, 4, 1, 1⟩ (fun _ => 0) (initVis 4 4)
        [⟨0, 1, 0⟩, ⟨2, 1, 1⟩] =
      scatterRun ⟨4, 4, 0, 4, 1, 1⟩ (fun _ => 0) (initVis 4 4)
        [⟨0, 1, 0⟩, ⟨2, 1, 1⟩] ∧
    sweepRun ⟨4, 4, 0, 4, 255⟩ (fun _ => 0) (initVis 4 4)
        [⟨0, 1, 0⟩, ⟨2, 1, 1⟩] =
      sweepRun ⟨4, 4, 0, 4, 255⟩ (fun _ => 0) (initVis 4 4)
        [⟨0, 1, 0⟩, ⟨2, 1, 1⟩] :=
  pipelines_deterministic 4 4 0 4 ⟨4, 4, 0, 4, 1, 1⟩ (fun _ => 0)
    (initVis 4 4) ⟨4, 4, 0, 4, 255⟩ (fun _ => 0) (initVis 4 4)
    [⟨0, 1, 0⟩, ⟨2, 1, 1⟩] [⟨0, 1, 0⟩, ⟨2, 1, 1⟩] rfl

/-- C4 (evidence): the `vis-scatter` dispatch passes the configured
upper time bound as `NewScatter`'s `minTime` parameter and the lower
bound as `maxTime`, reversing the time axis.  With width 100 and time
range `[0, 100]`, the event starting at `t = 25` is plotted at column
75, while the specified mapping `floor(width*(start - tA)/(tΩ - tA))`
puts it at column 25. -/
theorem visScatter_time_axis_reversed :
    scatterX (visScatterParams 100 50 0 100 16 1) 25 = 75 ∧
    specScatterX 100 0 100 25 = 25 := by
  constructor
  · rw [scatterX, visScatterParams, NewScatterParams]
    have h1 : (((100 : ℤ) : ℚ)) * (((25 : ℤ) : ℚ) - ((100 : ℤ) : ℚ)) /
        (((0 : ℤ) : ℚ) - ((100 : ℤ) : ℚ)) = ((75 : ℤ) : ℚ) := by norm_num
    rw [h1, goTrunc_intCast]
  · rw [specScatterX]
    norm_num

/-! ## Concrete instantiation of the log-derived quantities

For the concrete counterexamples and witnesses a kernel-computable
floor-log2 is needed.  `floorLog2 n = ⌊log₂ n⌋` for `n ≥ 1`, the exact
value of Go's `int(math.Log2(float64(n)))` (the float64 `Log2` of an
integer is within 1 ulp of the exact logarithm and only integral at
exact powers of two, where it is exact, so the truncations agree). -/

/-- Fuel-driven base-2 floor logarithm; `fuel ≥ n` suffices. -/
def log2Fuel : ℕ → ℕ → ℕ
  | 0, _ => 0
  | fuel + 1, n => if n ≤ 1 then 0 else log2Fuel fuel (n / 2) + 1

/-- `⌊log₂ n⌋` (0 for `n = 0`), kernel-computable. -/
def floorLog2 (n : ℕ) : ℕ := log2Fuel n n

/-- The per-step y-offset of `sweep.Record` for `yLog2 = 1`:
`int(1 * math.Log2(math.Max(1, d))) = ⌊log₂ (max 1 d)⌋`. -/
def yOffUnit (d : ℕ) : ℤ := floorLog2 (max 1 d)

/-- Sweep parameters of the concrete example: a 10×10 canvas over time
range `[0, 10]` with `yLog2 = 1` and one color step (`cΔ = 255/1`). -/
def sweepExParams : SweepParams := ⟨10, 10, 0, 10, 255⟩

/-- The concrete success event of the sweep example. -/
def sweepExEvent : EventDataPoint := ⟨0, 3, 0⟩

/-- C5 counterexample: for the 10×10 sweep with `yLog2 = 1`, recording
the success event `(Start 0, Run 3)` paints canvas row 5 twice — once at
time step 2 (column 2) and again at time step 3 (column 3) — so the
rows painted within a single `Record` call are not pairwise distinct. -/
theorem sweep_row_painted_twice :
    (sweepTrace sweepExParams yOffUnit sweepExEvent).map Prod.snd = [5, 5] ∧
    ¬ ((sweepTrace sweepExParams yOffUnit sweepExEvent).map Prod.snd).Nodup := by
  have h : (sweepTrace sweepExParams yOffUnit sweepExEvent).map Prod.snd =
      [5, 5] := by decide
  refine ⟨h, ?_⟩
  rw [h]
  decide

/-- C5 amended: within one `sweep.Record` call the y-walk is monotone —
consecutive painted rows are equal or descend by exactly one pixel, and
the first painted row is the center line `h/2` — so the painted rows
form a contiguous one-pixel-wide band from the center line outward; but
a row may be painted more than once, because the walk re-paints its
current row at each later time step (keeping the arc horizontally
continuous across columns). -/
theorem sweep_walk_monotone_contiguous (v : SweepParams) (yOff : ℕ → ℤ)
    (e : EventDataPoint) :
    List.Chain' stepDown ((sweepTrace v yOff e).map Prod.snd) ∧
    (sweepTrace v yOff e ≠ [] →
      ((sweepTrace v yOff e).map Prod.snd).head? = some (Int.tdiv v.h 2)) := by
  refine ⟨sweepArc_rows_chain _ _, ?_⟩
  intro hne
  rcases hh : (sweepTrace v yOff e).head? with _ | q
  · exact absurd (List.head?_eq_none_iff.mp hh) hne
  · rw [List.head?_map, hh]
    exact congrArg some (sweepArc_head _ _ q hh)

/-- Witness for C5 (amended): on the concrete 10×10 sweep example the
painted rows `[5, 5]` are a monotone walk starting at the center line
`10/2 = 5`. -/
theorem sweep_walk_monotone_contiguous_witness :
    List.Chain' stepDown
      ((sweepTrace sweepExParams yOffUnit sweepExEvent).map Prod.snd) ∧
    ((sweepTrace sweepExParams yOffUnit sweepExEvent).map Prod.snd).head? =
      some (Int.tdiv sweepExParams.h 2) :=
  ⟨(sweep_walk_monotone_contiguous sweepExParams yOffUnit sweepExEvent).1,
   (sweep_walk_monotone_contiguous sweepExParams yOffUnit sweepExEvent).2
     (by decide)⟩

/-- Scatter parameters of the concrete example: 10×10 canvas, time range
`[0, 10]`, `yLog2 = 1`, one color step. -/
def scatEx : ScatterParams := ⟨10, 10, 0, 10, 1, 1⟩

/-- `math.Log2(float64(run))` of the scatter example, evaluated at the
power of two `run = 32` (where the float64 log is exact). -/
def l2Ex : ℤ → ℚ := fun run => ((floorLog2 run.toNat : ℕ) : ℚ)

theorem l2Ex_32 : l2Ex 32 = ((5 : ℤ) : ℚ) := by
  have h : floorLog2 (32 : ℤ).toNat = 5 := rfl
  rw [l2Ex]
  rw [h]
  norm_num

theorem scatterY_scatEx_32 : scatterY scatEx l2Ex 32 = 5 := by
  rw [scatterY, l2Ex_32]
  have h : scatEx.yLog2 * ((5 : ℤ) : ℚ) = ((5 : ℤ) : ℚ) := by
    norm_num [scatEx]
  rw [h, goTrunc_intCast]
  norm_num [scatEx]

theorem scatterX_scatEx_2 : scatterX scatEx 2 = 2 := by
  rw [scatterX]
  have h : (scatEx.w : ℚ) * (((2 : ℤ) : ℚ) - scatEx.tA) /
      (scatEx.tΩ - scatEx.tA) = ((2 : ℤ) : ℚ) := by
    norm_num [scatEx]
  rw [h, goTrunc_intCast]

theorem blendCh_bg_quarter : blendCh 33 ((255 : ℚ) / 4) = 96 := by
  rw [blendCh, goUint8]
  have h1 : min (255 : ℚ) (((33 : ℕ) : ℚ) + 255 / 4) = 387 / 4 := by
    norm_num
  rw [h1, goTrunc_of_nonneg (by norm_num)]
  norm_num
  decide

/-- C6 counterexample: on a canvas of even height 10 the centerline row
`5` mirrors to itself (`10 - 5 = 5`).  In the scatter renderer the
success event `(Start 2, Run 32)` and the failure event with the same
coordinates both map to the pixel `(2, 5)` — a mirrored pair with
`y = height - y` — and recording the success raises the red channel of
that mirrored failure pixel from the background 33 to 96, so the
success recording does not leave the mirrored failure pixel's channels
unchanged. -/
theorem scatter_centerline_cross_contamination :
    scatterY scatEx l2Ex 32 = 5 ∧
    scatterX scatEx 2 = 2 ∧
    ((scatterRecord scatEx l2Ex (initVis 10 10)
      ⟨2, 32, 0⟩).pix 2 5).r = 96 ∧
    ((initVis 10 10).pix 2 5).r = 33 := by
  refine ⟨scatterY_scatEx_32, scatterX_scatEx_2, ?_, rfl⟩
  rw [scatterRecord]
  simp only
  rw [if_pos trivial]
  rw [scatterX_scatEx_2, scatterY_scatEx_32]
  rw [modPixel, if_pos (by norm_num [initVis])]
  simp only
  rw [if_pos (by norm_num)]
  show blendCh 33 (255 / scatEx.colors / 4) = 96
  have h : (255 : ℚ) / scatEx.colors / 4 = 255 / 4 := by norm_num [scatEx]
  rw [h, blendCh_bg_quarter]

/-- C6 amended: for the sweep renderer, mirrored pixel pairs strictly
off the centerline never cross-contaminate: a success `Record` paints
only rows at or above the center line `h/2` and so leaves every pixel
of any row strictly below it — in particular the mirrored failure row
`h - y` of any success row `y < h/2` — unchanged, and a failure
`Record` paints only rows at or below the mirror of the center line and
leaves every success row `y < h/2` unchanged.  For the scatter
renderer, recording any event leaves every row other than its single
target row unchanged, so mirrored pairs on distinct rows are
independent.  (At the centerline of an even-height canvas the "pair" is
one shared pixel and the independence fails.) -/
theorem mirrored_pixels_independent (v : SweepParams) (yOff : ℕ → ℤ)
    (c : Canvas) (eS eF : EventDataPoint) (hS : eS.Status = 0)
    (hF : eF.Status ≠ 0) (hh : 0 ≤ v.h) (y i : ℤ)
    (hy : y < Int.tdiv v.h 2)
    (sp : ScatterParams) (l2 : ℤ → ℚ) (cs : Canvas) (e : EventDataPoint)
    (i' j' : ℤ) (hj' : j' ≠ scatterY sp l2 e.Run) :
    (sweepRecord v yOff c eS).pix i (v.h - y) = c.pix i (v.h - y) ∧
    (sweepRecord v yOff c eF).pix i y = c.pix i y ∧
    (scatterRecord sp l2 cs e).pix i' j' = cs.pix i' j' := by
  have htd : Int.tdiv v.h 2 = v.h / 2 := Int.tdiv_eq_ediv hh (by norm_num)
  refine ⟨?_, ?_, ?_⟩
  · rw [sweepRecord, hS]
    apply foldl_sweepPaint_success_below
    · exact fun q hq => sweepTrace_rows_le v yOff eS q hq
    · omega
  · rw [sweepRecord]
    apply foldl_sweepPaint_failure_above v eF.Status hF
    · exact fun q hq => sweepTrace_rows_le v yOff eF q hq
    · omega
  · rw [scatterRecord]
    by_cases hst : e.Status = 0
    · rw [if_pos hst]
      exact modPixel_pix_ne_row _ _ _ _ _ _ hj'
    · rw [if_neg hst]
      exact modPixel_pix_ne_row _ _ _ _ _ _ hj'

/-- Witness for C6 (amended): on the concrete 10×10 examples, recording
the success sweep event leaves pixel `(0, 10-2)` unchanged, recording
the failure sweep event leaves pixel `(0, 2)` unchanged, and recording
the scatter event targeting row 5 leaves pixel `(0, 0)` unchanged. -/
theorem mirrored_pixels_independent_witness :
    (sweepRecord sweepExParams yOffUnit (initVis 10 10) sweepExEvent).pix 0
        (sweepExParams.h - 2) =
      (initVis 10 10).pix 0 (sweepExParams.h - 2) ∧
    (sweepRecord sweepExParams yOffUnit (initVis 10 10) ⟨0, 3, 1⟩).pix 0 2 =
      (initVis 10 10).pix 0 2 ∧
    (scatterRecord scatEx l2Ex (initVis 10 10) ⟨2, 32, 0⟩).pix 0 0 =
      (initVis 10 10).pix 0 0 :=
  mirrored_pixels_independent sweepExParams yOffUnit (initVis 10 10)
    sweepExEvent ⟨0, 3, 1⟩ (by decide) (by decide) (by decide) 2 0 (by decide)
    scatEx l2Ex (initVis 10 10) ⟨2, 32, 0⟩ 0 0
    (by rw [scatterY_scatEx_32]; decide)

theorem int8wrap_eq_self {n : ℤ} (h1 : -128 ≤ n) (h2 : n ≤ 127) :
    int8wrap n = n := by
  rw [int8wrap]
  omega

theorem getErrorCodeAux_no_match (reason : String) :
    ∀ (fs : List ErrorFilter) (i : ℕ), (∀ f ∈ fs, f reason = false) →
      getErrorCodeAux reason fs i = int8wrap ((i : ℤ) + fs.length + 1) := by
  intro fs
  induction fs with
  | nil =>
    intro i _
    rw [getErrorCodeAux]
    norm_num
  | cons f rest ih =>
    intro i hno
    rw [getErrorCodeAux]
    rw [hno f (List.mem_cons_self _ _)]
    simp only [Bool.false_eq_true, if_false]
    rw [ih (i + 1) (fun g hg => hno g (List.mem_cons_of_mem _ hg))]
    congr 1
    simp
    omega

theorem getErrorCodeAux_first_match (reason : String) (f : ErrorFilter)
    (hf : f reason = true) :
    ∀ (pre : List ErrorFilter) (post : List ErrorFilter) (i : ℕ),
      (∀ g ∈ pre, g reason = false) →
      getErrorCodeAux reason (pre ++ f :: post) i =
        int8wrap ((i : ℤ) + pre.length + 1) := by
  intro pre
  induction pre with
  | nil =>
    intro post i _
    rw [List.nil_append, getErrorCodeAux, hf]
    norm_num
  | cons g rest ih =>
    intro post i hno
    rw [List.cons_append, getErrorCodeAux]
    rw [hno g (List.mem_cons_self _ _)]
    simp only [Bool.false_eq_true, if_false]
    rw [ih post (i + 1) (fun g' hg' => hno g' (List.mem_cons_of_mem _ hg'))]
    congr 1
    simp
    omega

/-- C7 amended: for every reason string and every filter list,
`getErrorCode` returns `i + 1` for the 0-based position `i` of the
first matching filter provided `i ≤ 126` — with the implicit blank
matcher first, a blank reason yields code 1 — and returns
`len(filters) + 1`, one past the last configured matcher, when no
filter matches, provided `len(filters) ≤ 126`.  These bounds are
exactly what keeps the produced code within the function's `int8`
result type; beyond them the function returns the `int8`-wrapped value,
which differs from the claimed `i + 1` / `len + 1`. -/
theorem getErrorCode_first_match_indexing (reason : String)
    (pre post : List ErrorFilter) (f : ErrorFilter)
    (hpre : ∀ g ∈ pre, g reason = false) (hf : f reason = true)
    (hlen : pre.length ≤ 126)
    (fs : List ErrorFilter) (hnone : ∀ g ∈ fs, g reason = false)
    (hlen2 : fs.length ≤ 126) :
    getErrorCode reason (pre ++ f :: post) = (pre.length : ℤ) + 1 ∧
    getErrorCode reason fs = (fs.length : ℤ) + 1 := by
  constructor
  · rw [getErrorCode, getErrorCodeAux_first_match reason f hf pre post 0 hpre]
    rw [int8wrap_eq_self (by omega) (by omega)]
    norm_num
  · rw [getErrorCode, getErrorCodeAux_no_match reason fs 0 hnone]
    rw [int8wrap_eq_self (by omega) (by omega)]
    norm_num

/-- Witness for C7 (amended): with the implicit blank filter followed by
an everything-matcher, the reason `"x"` is classified with code 2 (the
matcher at 0-based index 1); against the blank filter alone, `"x"`
matches nothing and yields code 2 = length + 1. -/
theorem getErrorCode_first_match_indexing_witness :
    getErrorCode "x" ([blankFilter] ++ (fun _ => true : ErrorFilter) :: []) =
      (([blankFilter] : List ErrorFilter).length : ℤ) + 1 ∧
    getErrorCode "x" [blankFilter] =
      (([blankFilter] : List ErrorFilter).length : ℤ) + 1 :=
  getErrorCode_first_match_indexing "x" [blankFilter] []
    (fun _ => true : ErrorFilter)
    (by
      intro g hg
      rw [List.mem_singleton] at hg
      subst hg
      decide)
    rfl (by decide) [blankFilter]
    (by
      intro g hg
      rw [List.mem_singleton] at hg
      subst hg
      decide)
    (by decide)

/-- The 128-filter configuration of the C7 counterexample: the implicit
blank matcher followed by 127 configured matchers that match nothing. -/
def bigFilters : List ErrorFilter :=
  blankFilter :: List.replicate 127 (fun _ => false)

/-- C7 counterexample: with 128 filters none of which matches the
reason `"x"`, `getErrorCode` returns the `int8`-wrapped value `-127`,
not `len(filters) + 1 = 129` as the claim states. -/
theorem getErrorCode_wraps_past_127 :
    getErrorCode "x" bigFilters = -127 ∧ (bigFilters.length : ℤ) + 1 = 129 := by
  constructor
  · rw [getErrorCode, getErrorCodeAux_no_match "x" bigFilters 0 ?_]
    · have hlen : (bigFilters.length : ℤ) = 128 := by
        rw [bigFilters]
        simp
      rw [hlen]
      decide
    · intro g hg
      rw [bigFilters, List.mem_cons] at hg
      rcases hg with hg | hg
      · subst hg; decide
      · rw [List.eq_of_mem_replicate hg]
  · rw [bigFilters]
    simp

theorem downLoopT_iff (s y : ℤ) : DownLoopT s y ↔ y ≤ 0 ∨ 1 ≤ s := by
  constructor
  · intro h
    induction h with
    | exit y hy => left; omega
    | step y hy _ ih =>
      rcases ih with h | h
      · right; omega
      · right; exact h
  · intro h
    rcases h with h | h
    · exact DownLoopT.exit y (by omega)
    · have key : ∀ n : ℕ, ∀ z : ℤ, z ≤ n → DownLoopT s z := by
        intro n
        induction n with
        | zero => intro z hz; exact DownLoopT.exit z (by omega)
        | succ n ih =>
          intro z hz
          by_cases hz0 : 0 < z
          · exact DownLoopT.step z hz0 (ih (z - s) (by omega))
          · exact DownLoopT.exit z hz0
      exact key y.toNat y (by omega)

theorem upLoopT_iff (bound s y : ℤ) : UpLoopT bound s y ↔ bound ≤ y ∨ 1 ≤ s := by
  constructor
  · intro h
    induction h with
    | exit y hy => left; omega
    | step y hy _ ih =>
      rcases ih with h | h
      · right; omega
      · right; exact h
  · intro h
    rcases h with h | h
    · exact UpLoopT.exit y (by omega)
    · have key : ∀ n : ℕ, ∀ z : ℤ, bound - z ≤ n → UpLoopT bound s z := by
        intro n
        induction n with
        | zero => intro z hz; exact UpLoopT.exit z (by omega)
        | succ n ih =>
          intro z hz
          by_cases hzb : z < bound
          · exact UpLoopT.step z hzb (ih (z + s) (by omega))
          · exact UpLoopT.exit z hzb
      exact key (bound - y).toNat y (by omega)

/-- C10 amended: for positive canvas dimensions and positive `yLog2`,
construction of the scatter and sweep renderers (their `drawGrid`
loops) terminates if and only if the horizontal-gridline step
`int(float64(h)/yLog2)` is at least 1 and either `xGrid ≤ 0` (the
vertical loop is skipped) or the vertical step `w/xGrid` is at least 1;
in particular `yLog2 > h` makes the horizontal step 0 and
`0 < w < xGrid` makes the vertical step 0, and the corresponding loop
never exits.  (For degenerate non-positive dimensions the loops exit
immediately whatever the steps, so the unrestricted claim fails.) -/
theorem drawGrid_terminates_iff (w h xGrid : ℤ) (yLog2 : ℚ)
    (hw : 0 < w) (hh : 0 < h) (hy : 0 < yLog2) :
    (scatterGridTerm w h yLog2 xGrid ∧ sweepGridTerm w h yLog2 xGrid) ↔
      (1 ≤ hStep h yLog2 ∧ (xGrid ≤ 0 ∨ 1 ≤ vStep w xGrid)) := by
  have htd : Int.tdiv h 2 = h / 2 := Int.tdiv_eq_ediv (by omega) (by norm_num)
  have h1 : UpLoopT w (vStep w xGrid) 0 ↔ 1 ≤ vStep w xGrid := by
    rw [upLoopT_iff]; omega
  have h2 : DownLoopT (hStep h yLog2) h ↔ 1 ≤ hStep h yLog2 := by
    rw [downLoopT_iff]; omega
  have h3 : UpLoopT h (hStep h yLog2) (Int.tdiv h 2) ↔ 1 ≤ hStep h yLog2 := by
    rw [upLoopT_iff]; omega
  rw [scatterGridTerm, sweepGridTerm, h1, h2, h3]
  constructor
  · rintro ⟨⟨hv, hhs⟩, _, _⟩
    refine ⟨hhs, ?_⟩
    by_cases hx : 0 < xGrid
    · exact Or.inr (hv hx)
    · exact Or.inl (by omega)
  · rintro ⟨hhs, hv⟩
    have hvi : 0 < xGrid → 1 ≤ vStep w xGrid := by
      intro hx
      rcases hv with h | h
      · omega
      · exact h
    exact ⟨⟨hvi, hhs⟩, hvi, hhs⟩

/-- Witness for C10 (amended): at the default parameters — 256×128
canvas, `yLog2 = 16`, four vertical divisions — the termination
equivalence holds concretely; both steps are positive and both
`drawGrid`s terminate. -/
theorem drawGrid_terminates_iff_witness :
    (scatterGridTerm 256 128 16 4 ∧ sweepGridTerm 256 128 16 4) ↔
      (1 ≤ hStep 128 16 ∧ ((4 : ℤ) ≤ 0 ∨ 1 ≤ vStep 256 4)) :=
  drawGrid_terminates_iff 256 128 4 16 (by norm_num) (by norm_num)
    (by norm_num)

/-- C10 counterexample: for a degenerate canvas of height 0 (width 1,
`yLog2 = 16`, no vertical divisions) both `drawGrid`s terminate — the
horizontal loops exit immediately — even though the horizontal step
`int(float64(0)/16) = 0` is not positive, so termination is not
equivalent to positivity of the loop steps as the claim states. -/
theorem drawGrid_zero_height_terminates :
    (scatterGridTerm 1 0 16 0 ∧ sweepGridTerm 1 0 16 0) ∧
      ¬ 1 ≤ hStep 0 16 := by
  have hs : hStep 0 16 = 0 := by
    rw [hStep]
    have : ((0 : ℤ) : ℚ) / 16 = ((0 : ℤ) : ℚ) := by norm_num
    rw [this, goTrunc_intCast]
  refine ⟨⟨⟨fun hx => absurd hx (by decide), DownLoopT.exit 0 (by decide)⟩,
    ⟨fun hx => absurd hx (by decide), UpLoopT.exit (Int.tdiv 0 2) ?_⟩⟩, ?_⟩
  · decide
  · omega
